import Mathlib

deriving instance DecidableEq for Except

/-!
Verification development for the gitstory history-processing pipeline
(`src/gitstory/parser/`): commit extraction (`git_extractor.py`), semantic
classification (`commit_grouper.py`), data reduction (`data_cleaner.py`),
per-record validation (`validation.py`), and the `RepoParser.parse` staging
logic (`parser/__init__.py`).

Python strings are embedded as `List Char` (code-point sequences, matching
Python's `str` indexing and slicing); dictionaries whose key sets are dynamic
are embedded as insertion-ordered association lists, matching Python 3.7+
dict semantics.  Machine integers do not overflow in Python, so numeric
fields are plain `Int`/`Nat`.
-/

namespace Gitstory

/-- Python `str` values: a sequence of code points. -/
abbrev Str := List Char

/-- `sep.join(xs)` from Python: interleave `sep` between the pieces. -/
def joinSep (sep : Str) : List Str → Str
  | [] => []
  | [x] => x
  | x :: xs => x ++ sep ++ joinSep sep xs

/-- Concatenation of a list of strings (used to state round-trip laws). -/
def sjoin : List Str → Str
  | [] => []
  | x :: xs => x ++ sjoin xs

/-- `s.lower()` restricted to ASCII case mapping (every pattern the
classifier uses is plain ASCII, so this is the only case folding that can
affect a match). -/
def lowerStr (cs : Str) : Str := cs.map Char.toLower

/-- `s.upper()` restricted to ASCII case mapping. -/
def upperStr (cs : Str) : Str := cs.map Char.toUpper

/-- Decimal rendering of a natural number, as a `Str`. -/
def natStr (n : Nat) : Str := (toString n).toList

/-- An insertion-ordered association list lookup (Python `k in d` / `d[k]`). -/
def lookupA {κ α : Type} [DecidableEq κ] : List (κ × α) → κ → Option α
  | [], _ => none
  | (k0, v) :: rest, k => if k0 = k then some v else lookupA rest k

/-- Python dict assignment `d[k] = v`: overwrite in place, append if new. -/
def setAssoc {κ α : Type} [DecidableEq κ] : List (κ × α) → κ → α → List (κ × α)
  | [], k, v => [(k, v)]
  | (k0, v0) :: rest, k, v =>
    if k0 = k then (k0, v) :: rest else (k0, v0) :: setAssoc rest k v

/-- Update the value stored at a present key, leaving order unchanged. -/
def updateA {κ α : Type} [DecidableEq κ] : List (κ × α) → κ → (α → α) → List (κ × α)
  | [], _, _ => []
  | (k0, v0) :: rest, k, f =>
    if k0 = k then (k0, f v0) :: rest else (k0, v0) :: updateA rest k f

/-! ## Regular-expression engine

The classifier's patterns use only: literal text, the `^` anchor, `.*`,
`.+`, an optional group `(...)?` whose body is `\(.+\)`, and an optional
single letter `s?`.  We embed exactly this fragment.  `dotStar`/`dotPlus`
match any character except a newline, as Python's `.` does by default.
`reRun` returns the list of every possible remainder after matching a
prefix, so the match test below is complete for this fragment. -/

inductive RE where
  | lit : Str → RE
  | seq : RE → RE → RE
  | opt : RE → RE
  | dotStar : RE
  | dotPlus : RE

/-- All remainders reachable by consuming zero or more non-newline
characters (the behaviour of `.*`). -/
def dotRems : Str → List Str
  | [] => [[]]
  | c :: cs => (c :: cs) :: (if c = '\n' then [] else dotRems cs)

/-- Concatenation of the images of `f` (avoids naming churn around
`List.flatMap` / `List.bind`). -/
def concatMap {α β : Type} (f : α → List β) : List α → List β
  | [] => []
  | a :: as => f a ++ concatMap f as

/-- All remainders after matching `r` against a prefix of `cs`. -/
def reRun : RE → Str → List Str
  | .lit p, cs => if p.isPrefixOf cs then [cs.drop p.length] else []
  | .seq a b, cs => concatMap (reRun b) (reRun a cs)
  | .opt a, cs => cs :: reRun a cs
  | .dotStar, cs => dotRems cs
  | .dotPlus, cs =>
    match cs with
    | [] => []
    | c :: rest => if c = '\n' then [] else dotRems rest

/-- Does `r` match starting exactly at the head of `cs`? -/
def reMatchHere (r : RE) (cs : Str) : Bool := !(reRun r cs).isEmpty

/-- Does `r` match starting at some position of `cs`?  (Python `re.search`
for an unanchored pattern.) -/
def reSearchAnywhere (r : RE) : Str → Bool
  | [] => reMatchHere r []
  | c :: cs => reMatchHere r (c :: cs) || reSearchAnywhere r cs

/-- A compiled pattern: `anchored` records a leading `^`, which in
`re.search` (no MULTILINE flag) restricts the match to position 0. -/
structure Pat where
  anchored : Bool
  re : RE

/-- `re.search(pattern, s)` as a Boolean test. -/
def reSearch (p : Pat) (cs : Str) : Bool :=
  if p.anchored then reMatchHere p.re cs else reSearchAnywhere p.re cs

/-- The body of the optional group `(\(.+\))?`: an open paren, one or more
non-newline characters, a close paren. -/
def parenGroup : RE :=
  RE.seq (.lit [ '(' ]) (RE.seq .dotPlus (.lit [ ')' ]))

/-- Pattern `^word(\(.+\))?:` (conventional-commit prefix). -/
def pConv (w : String) : Pat :=
  { anchored := true
    re := RE.seq (.lit w.toList) (RE.seq (.opt parenGroup) (.lit [ ':' ])) }

/-- Pattern `^word` (anchored literal). -/
def pAnch (w : String) : Pat := { anchored := true, re := RE.lit w.toList }

/-- Pattern `word` (unanchored literal: substring search). -/
def pSub (w : String) : Pat := { anchored := false, re := RE.lit w.toList }

/-- Pattern `a.*b` (unanchored). -/
def pGap (a b : String) : Pat :=
  { anchored := false
    re := RE.seq (.lit a.toList) (RE.seq .dotStar (.lit b.toList)) }

/-- Pattern `^docs?(\(.+\))?:` — the one pattern with an optional letter. -/
def pDocs : Pat :=
  { anchored := true
    re := RE.seq (.lit ("doc").toList)
      (RE.seq (.opt (.lit [ 's' ]))
        (RE.seq (.opt parenGroup) (.lit [ ':' ]))) }

/-- `CommitGrouper.PATTERNS`: the ordered category/pattern table from
`commit_grouper.py` (Python 3.7+ dicts preserve insertion order, so the
dict literal is an ordered list of pairs). -/
def PATTERNS : List (String × List Pat) :=
  [ (("feature"),
      [ pConv ("feat"), pAnch ("add"), pAnch ("implement"),
        pSub ("new feature"), pSub ("feature:") ]),
    (("bugfix"),
      [ pConv ("fix"), pAnch ("bug"), pSub ("hotfix"), pSub ("patch"),
        pGap ("resolve") ("issue") ]),
    (("refactor"),
      [ pConv ("refactor"), pSub ("refactor"), pSub ("restructure"),
        pSub ("reorganize") ]),
    (("docs"),
      [ pDocs, pSub ("documentation"), pSub ("readme"), pSub ("comment") ]),
    (("style"),
      [ pConv ("style"), pSub ("formatting"), pSub ("whitespace"),
        pSub ("lint") ]),
    (("test"),
      [ pConv ("test"), pGap ("add") ("test"), pGap ("test") ("coverage") ]),
    (("chore"),
      [ pConv ("chore"), pSub ("dependency"), pSub ("dependencies"),
        pSub ("package"), pSub ("build") ]) ]

/-- The nested loop of `CommitGrouper._classify_commit`: walk categories in
table order, return the first category one of whose patterns fires. -/
def classifyAux (m : Str) : List (String × List Pat) → String
  | [] => ("other")
  | (ty, pats) :: rest =>
    if pats.any (fun p => reSearch p m) then ty else classifyAux m rest

/-- `CommitGrouper._classify_commit`: lowercase the message, then
first-match dispatch over `PATTERNS`. -/
def classifyCommit (message : Str) : String :=
  classifyAux (lowerStr message) PATTERNS

/-- Does `message` match some pattern of the named category?  (Spec-side
notion used to state the first-match policy.) -/
def matchesCat (m : Str) (cat : String) : Bool :=
  match lookupA PATTERNS cat with
  | some pats => pats.any (fun p => reSearch p (lowerStr m))
  | none => false

/-- Written from the specification's words: try `feature, bugfix, refactor,
docs, style, test, chore` in that fixed priority order, first category with
a matching pattern wins, fall back to `other`. -/
def specClassify (m : Str) : String :=
  if matchesCat m ("feature") then ("feature")
  else if matchesCat m ("bugfix") then ("bugfix")
  else if matchesCat m ("refactor") then ("refactor")
  else if matchesCat m ("docs") then ("docs")
  else if matchesCat m ("style") then ("style")
  else if matchesCat m ("test") then ("test")
  else if matchesCat m ("chore") then ("chore")
  else ("other")

/-! ## DataCleaner (`data_cleaner.py`)

`DataCleaner` consumes validated commit records, which always carry the
full field set the extractor produces; we embed them as the typed record
`Commit` (email is optional because the raw dict may lack the key). -/

/-- A validated commit record as produced by `GitExtractor` and consumed by
`CommitGrouper` / `DataCleaner`. -/
structure Commit where
  hash : Str
  author : Str
  email : Option Str
  timestamp : Str
  message : Str
  files_changed : List Str
  insertions : Int
  deletions : Int
  diff : Str
deriving DecidableEq, Repr

/-- `DataCleaner._chunk_diff`: empty diff gives no chunks, otherwise slice
`diff_text[i : i + 2000]` for `i in range(0, len(diff_text), 2000)`; the
`k`-th slice starts at `i = k * 2000`. -/
def chunkDiff (cs : Str) : List Str :=
  if cs.isEmpty then []
  else (List.range ((cs.length + 2000 - 1) / 2000)).map
    (fun k => (cs.drop (k * 2000)).take 2000)

/-- Recursive characterisation of `chunkDiff` (head chunk, then the chunks
of the rest), used to prove its properties by induction. -/
def chunksRec : Str → List Str
  | [] => []
  | c :: rest => ((c :: rest).take 2000) :: chunksRec ((c :: rest).drop 2000)
termination_by cs => cs.length
decreasing_by simp; omega

theorem chunkDiff_eq_chunksRec (cs : Str) : chunkDiff cs = chunksRec cs := by
  induction cs using chunksRec.induct with
  | case1 => rw [chunksRec]; rfl
  | case2 c rest ih =>
    rw [chunksRec]
    unfold chunkDiff
    simp only [List.isEmpty_cons, Bool.false_eq_true, if_false]
    by_cases h : (c :: rest).length ≤ 2000
    · have hceil : ((c :: rest).length + 2000 - 1) / 2000 = 1 := by
        simp only [List.length_cons] at h ⊢; omega
      have hdrop : (c :: rest).drop 2000 = [] := by
        rw [← List.length_eq_zero, List.length_drop]
        simp only [List.length_cons] at h ⊢; omega
      rw [hceil, hdrop, chunksRec]
      simp [List.range_succ]
    · push_neg at h
      obtain ⟨d, ds, hdd⟩ : ∃ d ds, (c :: rest).drop 2000 = d :: ds := by
        have hne : (c :: rest).drop 2000 ≠ [] := by
          rw [← List.length_pos_iff_ne_nil, List.length_drop]
          simp only [List.length_cons] at h ⊢; omega
        exact List.exists_cons_of_ne_nil hne
      have hceil : ((c :: rest).length + 2000 - 1) / 2000 =
          (((c :: rest).drop 2000).length + 2000 - 1) / 2000 + 1 := by
        rw [List.length_drop]
        simp only [List.length_cons] at h ⊢; omega
      rw [hceil, List.range_succ_eq_map]
      simp only [List.map_cons, List.map_map, Nat.zero_mul, List.drop_zero]
      rw [← ih]
      congr 1
      rw [hdd]
      simp only [chunkDiff, List.isEmpty_cons, Bool.false_eq_true, if_false]
      rw [← hdd]
      apply List.map_congr_left
      intro k _
      simp only [Function.comp_apply, Nat.succ_eq_add_one]
      rw [List.drop_drop]
      congr 2
      omega

theorem sjoin_chunksRec (cs : Str) : sjoin (chunksRec cs) = cs := by
  induction cs using chunksRec.induct with
  | case1 => rw [chunksRec]; rfl
  | case2 c rest ih => rw [chunksRec, sjoin, ih, List.take_append_drop]

theorem length_chunksRec (cs : Str) :
    (chunksRec cs).length = (cs.length + 1999) / 2000 := by
  induction cs using chunksRec.induct with
  | case1 => rw [chunksRec]; decide
  | case2 c rest ih =>
    rw [chunksRec, List.length_cons, ih, List.length_drop]
    simp only [List.length_cons]
    omega

theorem mem_chunksRec (cs : Str) :
    ∀ ch ∈ chunksRec cs, ch ≠ [] ∧ ch.length ≤ 2000 := by
  induction cs using chunksRec.induct with
  | case1 => rw [chunksRec]; intro ch h; cases h
  | case2 c rest ih =>
    intro ch h
    rw [chunksRec, List.mem_cons] at h
    rcases h with h | h
    · constructor
      · intro hnil
        rw [h] at hnil
        have := congrArg List.length hnil
        simp at this
      · rw [h, List.length_take]; omega
    · exact ih ch h

theorem getLast_chunksRec (cs : Str) : cs ≠ [] →
    ∃ l, (chunksRec cs).getLast? = some l ∧
      l.length = (if cs.length % 2000 = 0 then 2000 else cs.length % 2000) := by
  induction cs using chunksRec.induct with
  | case1 => intro h; exact absurd rfl h
  | case2 c rest ih =>
    intro _
    rw [chunksRec]
    by_cases hd : (c :: rest).drop 2000 = []
    · have hlen : (c :: rest).length ≤ 2000 := by
        have := congrArg List.length hd
        rw [List.length_drop] at this
        simp only [List.length_cons, List.length_nil] at this ⊢
        omega
      rw [hd, chunksRec]
      refine ⟨(c :: rest).take 2000, rfl, ?_⟩
      rw [List.take_of_length_le hlen]
      simp only [List.length_cons] at hlen ⊢
      by_cases hm : (rest.length + 1) % 2000 = 0
      · rw [if_pos hm]; omega
      · rw [if_neg hm]; omega
    · obtain ⟨l, hl, hlen⟩ := ih hd
      have h2 : 2000 < (c :: rest).length := by
        by_contra hcon
        push_neg at hcon
        apply hd
        rw [← List.length_eq_zero, List.length_drop]
        omega
      refine ⟨l, ?_, ?_⟩
      · cases hcr : chunksRec ((c :: rest).drop 2000) with
        | nil => rw [hcr] at hl; cases hl
        | cons a as =>
          rw [hcr] at hl
          rw [List.getLast?_cons_cons]
          exact hl
      · have hmod : ((c :: rest).drop 2000).length % 2000 =
            (c :: rest).length % 2000 := by
          rw [List.length_drop]
          simp only [List.length_cons] at h2 ⊢
          omega
        rw [hlen, hmod]

theorem chunksRec_all_2000 (cs : Str) : cs.length % 2000 = 0 →
    ∀ ch ∈ chunksRec cs, ch.length = 2000 := by
  induction cs using chunksRec.induct with
  | case1 => intro _ ch hm; rw [chunksRec] at hm; cases hm
  | case2 c rest ih =>
    intro h ch hm
    have hge : 2000 ≤ (c :: rest).length := by
      simp only [List.length_cons] at h ⊢
      omega
    rw [chunksRec, List.mem_cons] at hm
    rcases hm with hm | hm
    · rw [hm, List.length_take]; omega
    · refine ih ?_ ch hm
      rw [List.length_drop]
      simp only [List.length_cons] at h hge ⊢
      omega

/-- A reduced per-commit digest record (`DataCleaner._clean_commit` output;
the Python key `type` is spelled `ctype` here). -/
structure CleanedCommit where
  hash : Str
  author : Str
  timestamp : Str
  message : Str
  ctype : String
  files_changed : Nat
  changes : Int
  diff_chunks : List Str
deriving DecidableEq, Repr

/-- `DataCleaner._clean_commit`: truncate the message past 200 characters
(appending `...`), replace the file list by its count, the insertion and
deletion counts by their sum, and the raw diff by its chunks. -/
def cleanCommit (commit : Commit) (commit_type : String) : CleanedCommit :=
  let message := commit.message
  let message :=
    if 200 < message.length then message.take 200 ++ ("...").toList
    else message
  { hash := commit.hash
    author := commit.author
    timestamp := commit.timestamp
    message := message
    ctype := commit_type
    files_changed := commit.files_changed.length
    changes := commit.insertions + commit.deletions
    diff_chunks := chunkDiff commit.diff }

/-! ## Python primitives shared by validation and extraction -/

/-- The six characters `str.strip()` removes (ASCII whitespace). -/
def isPySpace (c : Char) : Bool :=
  c == ' ' || c == '\t' || c == '\n' || c == '\r' || c == '\x0b' || c == '\x0c'

/-- Python `s.strip()`. -/
def stripStr (cs : Str) : Str :=
  ((cs.dropWhile isPySpace).reverse.dropWhile isPySpace).reverse

def digitVal (c : Char) : Option Nat :=
  if c.isDigit then some (c.toNat - 48) else none

def read2 (a b : Char) : Option Nat :=
  match digitVal a, digitVal b with
  | some x, some y => some (10 * x + y)
  | _, _ => none

def read4 (a b c d : Char) : Option Nat :=
  match read2 a b, read2 c d with
  | some x, some y => some (100 * x + y)
  | _, _ => none

def isLeapYear (y : Nat) : Bool :=
  (y % 4 == 0 && y % 100 != 0) || y % 400 == 0

def daysInMonth (y m : Nat) : Nat :=
  if m = 2 then (if isLeapYear y then 29 else 28)
  else if m = 4 ∨ m = 6 ∨ m = 9 ∨ m = 11 then 30
  else 31

/-- Days strictly before January 1 of year `y` in the proleptic Gregorian
calendar, counted from year 1 (so `daysBeforeYear 1 = 0`). -/
def daysBeforeYear (y : Nat) : Nat :=
  365 * (y - 1) + (y - 1) / 4 + (y - 1) / 400 - (y - 1) / 100

def daysBeforeMonth (y m : Nat) : Nat :=
  (List.range (m - 1)).foldl (fun a i => a + daysInMonth y (i + 1)) 0

/-- `date(y, m, d).toordinal() - 1`: days since 0001-01-01. -/
def toOrdinal (y m d : Nat) : Nat :=
  daysBeforeYear y + daysBeforeMonth y m + (d - 1)

/-- Seconds since the Unix epoch of a civil date-time (1970-01-01 has
ordinal 719162 in the `toOrdinal` numbering). -/
def epochFromCivil (y mo d h mi s : Nat) : Int :=
  ((toOrdinal y mo d : Int) - 719162) * 86400 + ((h * 3600 + mi * 60 + s : Nat) : Int)

/-- Model of `datetime.fromisoformat`, restricted to the shapes this code
base ever feeds it: `YYYY-MM-DD`, optionally followed by one separator
character and `HH:MM` or `HH:MM:SS`.  Fractional seconds and timezone
offsets are outside the model; every string the pipeline produces or that
the proofs below evaluate on is covered.  Returns the Unix timestamp. -/
def fromisoformatE : Str → Option Int
  | y1 :: y2 :: y3 :: y4 :: '-' :: m1 :: m2 :: '-' :: d1 :: d2 :: rest =>
    match read4 y1 y2 y3 y4, read2 m1 m2, read2 d1 d2 with
    | some y, some mo, some da =>
      if 1 ≤ y ∧ 1 ≤ mo ∧ mo ≤ 12 ∧ 1 ≤ da ∧ da ≤ daysInMonth y mo then
        match rest with
        | [] => some (epochFromCivil y mo da 0 0 0)
        | _ :: h1 :: h2 :: ':' :: n1 :: n2 :: more =>
          match read2 h1 h2, read2 n1 n2 with
          | some hh, some nn =>
            if hh ≤ 23 ∧ nn ≤ 59 then
              match more with
              | [] => some (epochFromCivil y mo da hh nn 0)
              | ':' :: s1 :: s2 :: [] =>
                match read2 s1 s2 with
                | some ss =>
                  if ss ≤ 59 then some (epochFromCivil y mo da hh nn ss)
                  else none
                | none => none
              | _ => none
            else none
          | _, _ => none
        | _ => none
      else none
    | _, _, _ => none
  | _ => none

/-- Civil date of a day count since the Unix epoch (standard era-based
conversion), used to render `datetime.isoformat()` output. -/
def civilFromDays (days : Nat) : Nat × Nat × Nat :=
  let z := days + 719468
  let era := z / 146097
  let doe := z % 146097
  let yoe := (doe - doe / 1460 + doe / 36524 - doe / 146096) / 365
  let y := yoe + era * 400
  let doy := doe - (365 * yoe + yoe / 4 - yoe / 100)
  let mp := (5 * doy + 2) / 153
  let da := doy - (153 * mp + 2) / 5 + 1
  let mo := if mp < 10 then mp + 3 else mp - 9
  (if mo ≤ 2 then y + 1 else y, mo, da)

def pad2 (n : Nat) : Str := if n < 10 then '0' :: natStr n else natStr n

def pad4 (n : Nat) : Str :=
  if n < 10 then ('0' :: '0' :: '0' :: natStr n)
  else if n < 100 then ('0' :: '0' :: natStr n)
  else if n < 1000 then ('0' :: natStr n)
  else natStr n

/-- Model of `datetime.fromtimestamp(t).isoformat()` for non-negative
epochs, with the local clock fixed to UTC (the embedding's time zone). -/
def fromtimestampIso (t : Int) : Str :=
  let tt := t.toNat
  let ymd := civilFromDays (tt / 86400)
  let secs := tt % 86400
  pad4 ymd.1 ++ ('-' :: pad2 ymd.2.1) ++ ('-' :: pad2 ymd.2.2) ++
    ('T' :: pad2 (secs / 3600)) ++ (':' :: pad2 (secs % 3600 / 60)) ++
    (':' :: pad2 (secs % 60))

/-! ## Validation (`validation.py`)

`validation.py` receives raw dicts, so its commits are embedded as records
of optional dynamically-typed values: an outer `none` is an absent key,
`some vnone` is a key bound to Python `None`. -/

/-- A dynamically-typed Python value, restricted to the shapes the parser
pipeline stores in commit dicts. -/
inductive PyVal where
  | vnone
  | vstr (s : Str)
  | vint (n : Int)
  | vlist (xs : List Str)
deriving DecidableEq, Repr

/-- `str(v)` for the embedded values (list rendering assumes the elements
need no escaping, which holds for every input considered here). -/
def pyStr : PyVal → Str
  | .vnone => ("None").toList
  | .vstr s => s
  | .vint n => (toString n).toList
  | .vlist xs =>
    ('[' :: joinSep ((", ").toList)
      (xs.map (fun s => Char.ofNat 39 :: s ++ [Char.ofNat 39]))) ++ [']']

/-- A raw commit dict as seen by `validation.py`. -/
structure RawCommit where
  hash : Option PyVal := none
  author : Option PyVal := none
  message : Option PyVal := none
  timestamp : Option PyVal := none
  files_changed : Option PyVal := none
  insertions : Option PyVal := none
  deletions : Option PyVal := none
  diff : Option PyVal := none
deriving DecidableEq, Repr

/-- `field not in commit or commit[field] is None`. -/
def fieldAbsent : Option PyVal → Bool
  | none => true
  | some .vnone => true
  | some _ => false

/-- `validate_commit`: the four required fields must be present and not
`None`, and a *string* timestamp must parse with `fromisoformat`; a
non-string timestamp is not checked further.  Returns `(is_valid, error)`. -/
def validateCommit (commit : RawCommit) : Bool × Str :=
  if fieldAbsent commit.hash then
    (false, ("Missing required field: hash").toList)
  else if fieldAbsent commit.author then
    (false, ("Missing required field: author").toList)
  else if fieldAbsent commit.message then
    (false, ("Missing required field: message").toList)
  else if fieldAbsent commit.timestamp then
    (false, ("Missing required field: timestamp").toList)
  else
    match commit.timestamp with
    | some (.vstr s) =>
      if (fromisoformatE s).isSome then (true, [])
      else (false, ("Invalid timestamp format: ").toList ++ s)
    | _ => (true, [])

/-- `int(ds)` on a decimal string: optional surrounding whitespace,
optional sign, at least one digit (underscore separators are not modeled;
no caller produces them). -/
def digitsVal (ds : Str) : Option Nat :=
  if ds ≠ [] ∧ ds.all Char.isDigit then
    some (ds.foldl (fun a c => 10 * a + (c.toNat - 48)) 0)
  else none

def pyIntOfStr (s : Str) : Option Int :=
  match stripStr s with
  | '+' :: ds => (digitsVal ds).map (fun n => (n : Int))
  | '-' :: ds => (digitsVal ds).map (fun n => -(n : Int))
  | ds => (digitsVal ds).map (fun n => (n : Int))

/-- `int(v)`: identity on ints, decimal parsing on strings, `TypeError`
(modelled as `none`) otherwise. -/
def pyToInt : PyVal → Option Int
  | .vint n => some n
  | .vstr s => pyIntOfStr s
  | _ => none

/-- `sanitize_commit`: coerce author/message to strings, fill defaults for
the optional fields, and coerce the numeric fields with `int(...)` — one
shared `try` block, so a failure on either resets *both* to 0. -/
def sanitizeCommit (commit : RawCommit) : RawCommit :=
  let author := match commit.author with
    | some (.vstr s) => some (PyVal.vstr s)
    | _ => some (PyVal.vstr ("Unknown").toList)
  let message := match commit.message with
    | some (.vstr s) => some (PyVal.vstr s)
    | _ => some (PyVal.vstr ("(No commit message)").toList)
  let files_changed := match commit.files_changed with
    | none => some (PyVal.vlist [])
    | some v => some v
  let ins0 := match commit.insertions with
    | none => PyVal.vint 0
    | some v => v
  let del0 := match commit.deletions with
    | none => PyVal.vint 0
    | some v => v
  let diff := match commit.diff with
    | none => some (PyVal.vstr [])
    | some v => some v
  let pair := match pyToInt ins0, pyToInt del0 with
    | some a, some b => (a, b)
    | _, _ => ((0 : Int), (0 : Int))
  { commit with
      author := author
      message := message
      files_changed := files_changed
      insertions := some (.vint pair.1)
      deletions := some (.vint pair.2)
      diff := diff }

/-- `ValidationReport`. -/
structure VReport where
  warnings : List Str
  skipped_commits : Nat
  total_commits_processed : Nat
deriving DecidableEq, Repr

/-- The warning string recorded for one dropped commit:
`Skipped commit X: reason`, where `X` is `commit.get('hash', 'unknown')`. -/
def warnFor (commit : RawCommit) : Str :=
  ("Skipped commit ").toList ++
    (match commit.hash with
     | none => ("unknown").toList
     | some v => pyStr v) ++
    (": ").toList ++ (validateCommit commit).2

/-- `validate_commits`: drop invalid commits (counting and warning each),
sanitize the survivors, record the total examined. -/
def validateCommits (commits : List RawCommit) (report : VReport) :
    List RawCommit × VReport :=
  let report := { report with total_commits_processed := commits.length }
  commits.foldl
    (fun acc commit =>
      if (validateCommit commit).1 then
        (acc.1 ++ [sanitizeCommit commit], acc.2)
      else
        (acc.1,
         { acc.2 with
             skipped_commits := acc.2.skipped_commits + 1
             warnings := acc.2.warnings ++ [warnFor commit] }))
    ([], report)

/-! ## GitExtractor (`git_extractor.py`) -/

/-- The data `commit.parents[0].diff(commit, ...)` yields: changed paths
and, with `create_patch=True`, the per-file patch texts. -/
structure ParentDiff where
  paths : List Str
  patches : List Str
deriving DecidableEq, Repr

/-- One underlying repository commit as GitPython exposes it; `parentDiff`
is `none` exactly when `commit.parents` is empty. -/
structure GitCommit where
  hexsha : Str
  authorName : Str
  authorEmail : Str
  committedDate : Int
  message : Str
  treePaths : List Str
  insertionsTotal : Nat
  deletionsTotal : Nat
  parentDiff : Option ParentDiff
deriving DecidableEq, Repr

/-- `GitExtractor._get_changed_files`: empty for a parentless commit. -/
def getChangedFiles (c : GitCommit) : List Str :=
  match c.parentDiff with
  | none => []
  | some pd => pd.paths

/-- `GitExtractor._get_commit_diff`: for a parentless (initial) commit,
synthesize an all-files-added listing from the tree; otherwise join the
parent-relative patches. -/
def getCommitDiff (c : GitCommit) : Str :=
  match c.parentDiff with
  | none => joinSep (("\n").toList) (c.treePaths.map (fun p => ("A ").toList ++ p))
  | some pd => joinSep (("\n").toList) pd.patches

/-- The commit dict built by `get_commits` / `_format_commit` (identical
field for field; `get_commits` inlines it). -/
def formatCommit (c : GitCommit) : Commit :=
  { hash := c.hexsha.take 8
    author := c.authorName
    email := some c.authorEmail
    timestamp := fromtimestampIso c.committedDate
    message := stripStr c.message
    files_changed := getChangedFiles c
    insertions := (c.insertionsTotal : Int)
    deletions := (c.deletionsTotal : Int)
    diff := getCommitDiff c }

/-- `re.match(r"(\d+)([wmd])", s)`: a non-empty leading digit run followed
by one of `w`, `m`, `d`; trailing characters are ignored. -/
def reMatchTime (s : Str) : Option (Nat × Char) :=
  match s.takeWhile Char.isDigit, s.dropWhile Char.isDigit with
  | [], _ => none
  | _ :: _, [] => none
  | d :: ds, u :: _ =>
    if u = 'd' ∨ u = 'w' ∨ u = 'm' then
      some ((d :: ds).foldl (fun a c => 10 * a + (c.toNat - 48)) 0, u)
    else none

/-- `GitExtractor._parse_time`: absolute `fromisoformat` first, then the
relative `<digits><unit>` form (`d`/`w`/`m` only — the regex has no year
unit), else `ValueError` with the verbatim token. -/
def parseTime (now : Int) (time_str : Str) : Except Str Int :=
  match fromisoformatE time_str with
  | some t => Except.ok t
  | none =>
    match reMatchTime time_str with
    | some (v, u) =>
      if u = 'd' then Except.ok (now - (v : Int) * 86400)
      else if u = 'w' then Except.ok (now - (v : Int) * 7 * 86400)
      else Except.ok (now - (v : Int) * 30 * 86400)
    | none => Except.error (("Invalid time format: ").toList ++ time_str)

/-- The `for commit in self.repo.iter_commits(branch)` loop of
`get_commits`: stop at the first commit older than `since`, skip commits
newer than `until`, keep the rest. -/
def walkCommits (sinceT : Option Int) (untilT : Int) : List GitCommit → List Commit
  | [] => []
  | c :: rest =>
    if (match sinceT with
        | some s => decide (c.committedDate < s)
        | none => false) then []
    else if c.committedDate > untilT then walkCommits sinceT untilT rest
    else formatCommit c :: walkCommits sinceT untilT rest

/-- `GitExtractor.get_commits`, over the newest-first commit list of the
walked branch; `now` is the clock reading `datetime.now()` returns. -/
def getCommits (now : Int) (since untilS : Option Str)
    (branchCommits : List GitCommit) : Except Str (List Commit) :=
  match (match since with
         | none => (Except.ok none : Except Str (Option Int))
         | some s =>
           match parseTime now s with
           | .ok t => Except.ok (some t)
           | .error e => Except.error e) with
  | .error e => Except.error e
  | .ok sinceT =>
    match (match untilS with
           | none => (Except.ok now : Except Str Int)
           | some s => parseTime now s) with
    | .error e => Except.error e
    | .ok untilT => Except.ok (walkCommits sinceT untilT branchCommits)

/-! ## CommitGrouper aggregation (`commit_grouper.py`) -/

/-- The per-author accumulator value `{"count": ..., "types": ..., "name": ...}`. -/
structure AuthorStat where
  count : Nat
  types : List (String × Nat)
  name : Str
deriving DecidableEq, Repr

/-- A `by_author` display entry `{"count": ..., "types": ...}`. -/
structure AuthorSummary where
  count : Nat
  types : List (String × Nat)
deriving DecidableEq, Repr

structure GroupStats where
  total_commits : Nat
  by_type : List (String × Nat)
  by_author : List (Str × AuthorSummary)
deriving DecidableEq, Repr

structure GroupedResult where
  grouped_commits : List (String × List Commit)
  stats : GroupStats
deriving DecidableEq, Repr

/-- The `grouped` dict literal of `group_commits`: all eight categories,
each with an empty bucket, in source order. -/
def initGroups : List (String × List Commit) :=
  [ (("feature"), []), (("bugfix"), []), (("refactor"), []), (("docs"), []),
    (("style"), []), (("test"), []), (("chore"), []), (("other"), []) ]

/-- `grouped[commit_type].append(commit)`; the key is always present
because `_classify_commit` only returns keys of `initGroups`. -/
def appendGroup (g : List (String × List Commit)) (k : String) (c : Commit) :
    List (String × List Commit) :=
  updateA g k (fun cs => cs ++ [c])

/-- The loop state of `group_commits`. -/
structure GState where
  grouped : List (String × List Commit)
  author_stats : List (Str × AuthorStat)
  email_to_name : List (Str × Str)
deriving DecidableEq, Repr

/-- One iteration of the `for commit in commits` loop of `group_commits`. -/
def stepCommit (st : GState) (commit : Commit) : GState :=
  let commit_type := classifyCommit commit.message
  let grouped := appendGroup st.grouped commit_type commit
  let email := commit.email.getD commit.author
  let author_name := commit.author
  let email_to_name :=
    match lookupA st.email_to_name email with
    | none => setAssoc st.email_to_name email author_name
    | some existing =>
      if existing.length < author_name.length then
        setAssoc st.email_to_name email author_name
      else st.email_to_name
  let author_stats :=
    match lookupA st.author_stats email with
    | none =>
      setAssoc st.author_stats email
        { count := 0, types := [], name := author_name }
    | some _ => st.author_stats
  let author_stats :=
    updateA author_stats email (fun d =>
      { d with
          count := d.count + 1
          name := (lookupA email_to_name email).getD d.name
          types := setAssoc d.types commit_type
            ((lookupA d.types commit_type).getD 0 + 1) })
  { grouped := grouped, author_stats := author_stats,
    email_to_name := email_to_name }

/-- `CommitGrouper.group_commits`: classify and bucket each commit, fold
the author statistics keyed by email, then re-key them by display name for
output (a dict comprehension, so a repeated name overwrites the value while
keeping the first position). -/
def groupCommits (commits : List Commit) : GroupedResult :=
  let st := commits.foldl stepCommit
    { grouped := initGroups, author_stats := [], email_to_name := [] }
  { grouped_commits := st.grouped
    stats :=
      { total_commits := commits.length
        by_type := (st.grouped.filter (fun p => !p.2.isEmpty)).map
          (fun p => (p.1, p.2.length))
        by_author := st.author_stats.foldl
          (fun acc p =>
            setAssoc acc p.2.name { count := p.2.count, types := p.2.types })
          [] } }

/-! ## `DataCleaner.clean_data` and the `RepoParser.parse` staging logic

`clean_data` receives the grouper's output dict, whose `stats` entry is a
plain dict: after the fallback rewrite in `RepoParser.parse` it holds only
a `groups` key, so the `stats["by_type"]` subscript inside `clean_data` can
raise `KeyError`.  The embedding therefore keeps `stats` as an association
list of tagged values and makes `clean_data` fallible. -/

inductive StatVal where
  | vnat (n : Nat)
  | vmap (m : List (String × Nat))
  | vauthor (m : List (Str × AuthorSummary))
deriving DecidableEq, Repr

/-- The grouper-stage output as `RepoParser.parse` sees it; `none` models a
missing dict key (the schema violations `validate_grouped_data` can
detect on otherwise well-typed data). -/
structure GrouperOut where
  grouped_commits : Option (List (String × List Commit))
  stats : Option (List (String × StatVal))
deriving DecidableEq, Repr

/-- `validate_grouped_data`: both required keys must be present.  The
source's further checks (the values are a dict and a dict, buckets are
lists of dicts, inner commits carry the four required fields) hold by
construction in this typed embedding, so key presence is the only
observable condition. -/
def validateGroupedData (grouped_data : GrouperOut) : Bool × Str :=
  match grouped_data.grouped_commits with
  | none => (false, ("Missing required key: grouped_commits").toList)
  | some _ =>
    match grouped_data.stats with
    | none => (false, ("Missing required key: stats").toList)
    | some _ => (true, [])

/-- `DataCleaner._create_summary_chunk`. -/
def createSummaryChunk (commit_type : String) (commits : List Commit) : Str :=
  let header := ("## ").toList ++ upperStr commit_type.toList ++
    (" COMMITS (").toList ++ natStr commits.length ++ (" total)").toList
  let lines := (commits.take 10).map (fun c =>
    ("- [").toList ++ c.hash ++ ("] ").toList ++ c.author ++ (": ").toList ++
      c.message.take 100)
  let lines :=
    if 10 < commits.length then
      lines ++ [ ("... and ").toList ++ natStr (commits.length - 10) ++
        (" more ").toList ++ commit_type.toList ++ (" commits").toList ]
    else lines
  joinSep (("\n").toList) (header :: lines)

structure CleanedMeta where
  total_commits_analyzed : Nat
  commit_types_present : List String
  validation_report : Option VReport
deriving DecidableEq, Repr

structure CleanedOut where
  commits : List CleanedCommit
  summary_text : Str
  stats : List (String × StatVal)
  metadata : CleanedMeta
deriving DecidableEq, Repr

/-- `DataCleaner.clean_data`: per category (skipping empty buckets) cap at
50 commits, reduce each, and emit a summary chunk; then assemble the
result.  `Except.error k` models an uncaught `KeyError(k)` (or, for
`by_type.keys`, an `AttributeError`) raised while building the metadata. -/
def cleanData (grouped_data : GrouperOut) : Except String CleanedOut :=
  match grouped_data.grouped_commits with
  | none => Except.error ("grouped_commits")
  | some groups =>
    match grouped_data.stats with
    | none => Except.error ("stats")
    | some stats =>
      let acc := groups.foldl
        (fun (acc : List CleanedCommit × List Str) p =>
          if p.2.isEmpty then acc
          else
            let commits := p.2.take 50
            (acc.1 ++ commits.map (fun c => cleanCommit c p.1),
             acc.2 ++ [createSummaryChunk p.1 commits]))
        ([], [])
      match lookupA stats ("by_type") with
      | some (.vmap m) =>
        Except.ok
          { commits := acc.1
            summary_text := joinSep (("\n\n").toList) acc.2
            stats := stats
            metadata :=
              { total_commits_analyzed := acc.1.length
                commit_types_present := m.map Prod.fst
                validation_report := none } }
      | some _ => Except.error ("by_type.keys")
      | none => Except.error ("by_type")

/-- `validate_cleaned_data`: in the typed embedding the four required keys,
their container types, and the carried-forward commit fields are present by
construction, so the check always succeeds. -/
def validateCleanedData (_cleaned : CleanedOut) : Bool × Str := (true, [])

/-- A `ValidationError` raised by `RepoParser.parse` (stage and report
snapshot attached), or an uncaught `KeyError` escaping a stage. -/
inductive ParseErr where
  | validationError (stage : String) (msg : Str) (report : VReport)
  | keyError (key : String)
deriving DecidableEq, Repr

/-- A completed `parse` run: the normal cleaned result, or the degraded
partial dict the cleaner-stage fallback returns. -/
inductive ParseResult where
  | cleaned (c : CleanedOut) (report : VReport)
  | degraded (commits : List Commit) (summary_text : Str) (report : VReport)
deriving DecidableEq, Repr

def addWarning (r : VReport) (w : Str) : VReport :=
  { r with warnings := r.warnings ++ [w] }

/-- Stage 3 of `RepoParser.parse`: run the cleaner, validate its output,
and apply the configured policy to a cleaner-stage violation. -/
def continueClean (policy : String) (report : VReport)
    (validated : List Commit) (grouped : GrouperOut) :
    Except ParseErr ParseResult :=
  match cleanData grouped with
  | .error k => Except.error (.keyError k)
  | .ok cleaned =>
    let v := validateCleanedData cleaned
    if v.1 then
      Except.ok (.cleaned
        { cleaned with
            metadata := { cleaned.metadata with validation_report := some report } }
        report)
    else
      let msg := ("Cleaner output validation failed: ").toList ++ v.2
      if policy = ("fallback") then
        let report := addWarning report
          (msg ++ (" — returning partial cleaned data").toList)
        Except.ok (.degraded validated
          (("Partial summary (cleaner validation failed)").toList) report)
      else Except.error (.validationError ("cleaner") msg report)

/-- Stages 2–3 of `RepoParser.parse`, from the grouper's output onward:
validate the grouping; under the `fallback` policy a violation records a
warning and rebuilds the grouping as one singleton bucket per validated
commit, keyed by hash, with `stats = {"groups": n}`; then the cleaner
stage runs.  (The source's outer `except ValidationError` re-raises with a
`Pipeline validation error: ` prefix without changing stage or report, and
catches nothing else — in particular not `KeyError` — so it is omitted
here.) -/
def parseAfterGrouping (policy : String) (report : VReport)
    (validated : List Commit) (grouped0 : GrouperOut) :
    Except ParseErr ParseResult :=
  let v := validateGroupedData grouped0
  if v.1 then continueClean policy report validated grouped0
  else
    let msg := ("Grouper output validation failed: ").toList ++ v.2
    if policy = ("fallback") then
      let report := addWarning report
        (msg ++ (" — falling back to per-commit grouping").toList)
      let fg : GrouperOut :=
        { grouped_commits :=
            some (validated.foldl (fun acc c => setAssoc acc c.hash.asString [c]) [])
          stats := some [ (("groups"), .vnat validated.length) ] }
      continueClean policy report validated fg
    else Except.error (.validationError ("grouper") msg report)

/-! ## Shared concrete inputs for witnesses -/

/-- A well-formed commit record used as a concrete evaluation point. -/
def demoCommit : Commit :=
  { hash := ("abc12345").toList
    author := ("Alice").toList
    email := some (("alice@example.com").toList)
    timestamp := ("2025-01-10T10:00:00").toList
    message := ("hey").toList
    files_changed := [ ("a.py").toList ]
    insertions := 2
    deletions := 1
    diff := ("x").toList }

/-! ## Claim theorems -/

/-- C1: classification assigns exactly one category out of the closed
eight-element set, by first-match dispatch in the fixed priority order
`feature, bugfix, refactor, docs, style, test, chore` with `other` as the
fallback (`specClassify` spells out that policy in the specification's
words); in particular a message matching both an `add` cue and a `test`
cue classifies as `feature`. -/
theorem C1_classification_first_match :
    (∀ m : Str, classifyCommit m = specClassify m)
    ∧ (∀ m : Str, classifyCommit m ∈
        [ ("feature"), ("bugfix"), ("refactor"), ("docs"), ("style"),
          ("test"), ("chore"), ("other") ])
    ∧ classifyCommit (("add more test coverage").toList) = ("feature")
    ∧ matchesCat (("add more test coverage").toList) ("test") = true := by
  refine ⟨fun m => rfl, fun m => ?_, by decide, by decide⟩
  have hms : classifyCommit m = specClassify m := rfl
  rw [hms]
  unfold specClassify
  repeat' split
  all_goals decide

/-- C2: the claim says the `fallback` policy recovers from a grouper-stage
schema violation and continues through `DataCleaner`, but the synthesized
degraded grouping carries `stats = {"groups": n}`, so `clean_data` raises
an uncaught `KeyError('by_type')` while building its metadata: the run
crashes instead of producing a reduced result (the repository's own
fallback test only passes because it mocks out `DataCleaner`). -/
theorem C2_fallback_grouper_violation_crashes (validated : List Commit)
    (g : List (String × List Commit)) (report : VReport) :
    parseAfterGrouping ("fallback") report validated
      { grouped_commits := some g, stats := none } =
      Except.error (.keyError ("by_type")) := by
  simp [parseAfterGrouping, validateGroupedData, continueClean, cleanData,
    lookupA]

/-- C3: the specification promises a `y = 365-day years` relative unit
(and the unit test `test_parse_time_invalid_iso_valid_relative_years`
expects `2y` to work), but the regex in `_parse_time` is `(\d+)([wmd])`,
so `2y` raises the invalid-time error while `d`, `w`, `m` all parse. -/
theorem C3_year_unit_rejected :
    parseTime 0 (("2y").toList) =
      Except.error (("Invalid time format: 2y").toList)
    ∧ parseTime 0 (("5d").toList) = Except.ok (0 - 5 * 86400)
    ∧ parseTime 0 (("2w").toList) = Except.ok (0 - 2 * 7 * 86400)
    ∧ parseTime 0 (("3m").toList) = Except.ok (0 - 3 * 30 * 86400) := by
  refine ⟨by decide, by decide, by decide, by decide⟩

/-- C5: chunking a diff is a partition: the chunks concatenate back to the
diff, there are `⌈len/2000⌉` of them (`(len + 1999) / 2000` in integer
arithmetic), the empty diff has none, no chunk is empty, and the last
chunk has `len mod 2000` characters unless that remainder is zero, in
which case every chunk has exactly 2000. -/
theorem C5_chunk_roundtrip (d : Str) :
    sjoin (chunkDiff d) = d
    ∧ (chunkDiff d).length = (d.length + 1999) / 2000
    ∧ (d = [] → chunkDiff d = [])
    ∧ (∀ ch ∈ chunkDiff d, ch ≠ [])
    ∧ (d ≠ [] → ∃ l, (chunkDiff d).getLast? = some l ∧
        l.length = (if d.length % 2000 = 0 then 2000 else d.length % 2000))
    ∧ (d.length % 2000 = 0 → ∀ ch ∈ chunkDiff d, ch.length = 2000) := by
  rw [chunkDiff_eq_chunksRec]
  exact ⟨sjoin_chunksRec d, length_chunksRec d,
    fun h => by rw [h, chunksRec],
    fun ch hm => (mem_chunksRec d ch hm).1,
    getLast_chunksRec d,
    chunksRec_all_2000 d⟩

theorem C5_chunk_roundtrip_witness :
    ("ab").toList ≠ ([] : Str)
    ∧ ∃ l, (chunkDiff (("ab").toList)).getLast? = some l ∧
        l.length = (if (("ab").toList).length % 2000 = 0 then 2000
                    else (("ab").toList).length % 2000) :=
  ⟨by decide, (C5_chunk_roundtrip (("ab").toList)).2.2.2.2.1 (by decide)⟩

/-- C6: message reduction is the identity on messages of at most 200
characters (in particular exactly 200), and truncates longer messages to
their first 200 characters plus `...` — always 203 characters ending in
`...`, so no reduced message ever exceeds 203 characters. -/
theorem C6_truncation (c : Commit) (ty : String) :
    (c.message.length ≤ 200 → (cleanCommit c ty).message = c.message)
    ∧ (200 < c.message.length →
        (cleanCommit c ty).message = c.message.take 200 ++ ("...").toList
        ∧ (cleanCommit c ty).message.length = 203
        ∧ List.IsSuffix (("...").toList) (cleanCommit c ty).message)
    ∧ (c.message.length = 201 → (cleanCommit c ty).message.length = 203)
    ∧ (cleanCommit c ty).message.length ≤ 203 := by
  have hm : (cleanCommit c ty).message =
      (if 200 < c.message.length then c.message.take 200 ++ ("...").toList
       else c.message) := rfl
  by_cases h : 200 < c.message.length
  · rw [hm, if_pos h]
    have hlen : (c.message.take 200 ++ ("...").toList).length = 203 := by
      rw [List.length_append, List.length_take,
        (show (("...").toList).length = 3 from rfl)]
      omega
    exact ⟨fun hle => absurd h (by omega),
      fun _ => ⟨rfl, hlen, ⟨c.message.take 200, rfl⟩⟩,
      fun _ => hlen, by omega⟩
  · push_neg at h
    rw [hm, if_neg (by omega)]
    exact ⟨fun _ => rfl, fun hgt => absurd hgt (by omega),
      fun h201 => by omega, by omega⟩

theorem C6_truncation_witness :
    demoCommit.message.length ≤ 200
    ∧ (cleanCommit demoCommit ("feature")).message = demoCommit.message :=
  ⟨by decide, (C6_truncation demoCommit ("feature")).1 (by decide)⟩

/-- Closed form of the `validate_commits` loop: survivors are the
sanitized valid commits in order, and the report gains one skip count and
one warning per invalid commit, in order. -/
theorem validateCommits_foldl (cs : List RawCommit) (a : List RawCommit)
    (r : VReport) :
    cs.foldl
      (fun acc commit =>
        if (validateCommit commit).1 then
          (acc.1 ++ [sanitizeCommit commit], acc.2)
        else
          (acc.1,
           { acc.2 with
               skipped_commits := acc.2.skipped_commits + 1
               warnings := acc.2.warnings ++ [warnFor commit] }))
      (a, r) =
    (a ++ (cs.filter (fun c => (validateCommit c).1)).map sanitizeCommit,
     { r with
         skipped_commits :=
           r.skipped_commits + (cs.filter (fun c => !(validateCommit c).1)).length
         warnings :=
           r.warnings ++ (cs.filter (fun c => !(validateCommit c).1)).map warnFor }) := by
  induction cs generalizing a r with
  | nil => simp
  | cons c cs ih =>
    cases hb : (validateCommit c).1 with
    | true =>
      simp only [List.foldl_cons, List.filter_cons, hb, if_true, Bool.not_true,
        Bool.false_eq_true, if_false]
      rw [ih]
      simp [List.append_assoc]
    | false =>
      simp only [List.foldl_cons, List.filter_cons, hb, Bool.false_eq_true,
        if_false, Bool.not_false, if_true]
      rw [ih]
      refine Prod.ext rfl ?_
      simp only [VReport.mk.injEq]
      refine ⟨by simp, ?_, trivial⟩
      simp only [List.length_cons]
      omega

/-- C4: after running per-commit validation on any input list (with a
fresh report), `skipped_commits` equals exactly the number of commits
failing `validate_commit`, the warning list has exactly one entry per
dropped commit (in order, each rendered by `warnFor`), the examined count
is the input length, and each warning references the dropped commit's hash
— or the string `unknown` when the hash key is missing. -/
theorem C4_drop_accounting (cs : List RawCommit) :
    ((validateCommits cs ⟨[], 0, 0⟩).2).skipped_commits =
      (cs.filter (fun c => !(validateCommit c).1)).length
    ∧ ((validateCommits cs ⟨[], 0, 0⟩).2).warnings =
      (cs.filter (fun c => !(validateCommit c).1)).map warnFor
    ∧ ((validateCommits cs ⟨[], 0, 0⟩).2).total_commits_processed = cs.length
    ∧ (∀ c ∈ cs, (validateCommit c).1 = false →
        (c.hash = none → List.IsInfix (("unknown").toList) (warnFor c))
        ∧ (∀ hsh, c.hash = some (.vstr hsh) →
            List.IsInfix hsh (warnFor c))) := by
  unfold validateCommits
  rw [validateCommits_foldl]
  refine ⟨by simp, by simp, by simp, ?_⟩
  intro c _ _
  constructor
  · intro hnone
    refine ⟨("Skipped commit ").toList, (": ").toList ++ (validateCommit c).2, ?_⟩
    rw [warnFor, hnone]
    simp [List.append_assoc]
  · intro hsh hh
    refine ⟨("Skipped commit ").toList, (": ").toList ++ (validateCommit c).2, ?_⟩
    rw [warnFor, hh]
    simp [pyStr, List.append_assoc]

/-- A commit dict with no keys at all (every field absent). -/
def demoBadCommit : RawCommit := {}

theorem C4_drop_accounting_witness :
    List.IsInfix (("unknown").toList) (warnFor demoBadCommit) :=
  ((C4_drop_accounting [ demoBadCommit ]).2.2.2 demoBadCommit
    (List.mem_singleton.mpr rfl) (by decide)).1 rfl

/-- `commit['timestamp']` holds a string parsing as a timestamp. -/
def tsParsesB (v : Option PyVal) : Bool :=
  match v with
  | some (.vstr s) => (fromisoformatE s).isSome
  | _ => false

/-- `commit[field]` holds a non-negative integer. -/
def nonNegIntB (v : Option PyVal) : Bool :=
  match v with
  | some (.vint n) => decide (0 ≤ n)
  | _ => false

/-- Claim C7 instantiated at one commit: if it survives `validate_commit`,
its sanitized form has the four fields present, a timestamp that parses as
a point in time, and non-negative integer counters. -/
def C7ClaimAt (c : RawCommit) : Prop :=
  (validateCommit c).1 = true →
    fieldAbsent (sanitizeCommit c).hash = false
    ∧ fieldAbsent (sanitizeCommit c).author = false
    ∧ fieldAbsent (sanitizeCommit c).message = false
    ∧ fieldAbsent (sanitizeCommit c).timestamp = false
    ∧ tsParsesB (sanitizeCommit c).timestamp = true
    ∧ nonNegIntB (sanitizeCommit c).insertions = true
    ∧ nonNegIntB (sanitizeCommit c).deletions = true

/-- A commit that passes validation with a non-string timestamp and a
negative insertion count. -/
def c7bad : RawCommit :=
  { hash := some (.vstr (("deadbeef").toList))
    author := some (.vstr (("Alice").toList))
    message := some (.vstr (("msg").toList))
    timestamp := some (.vint 5)
    insertions := some (.vint (-3))
    deletions := some (.vint 0) }

/-- C7 fails as stated: `c7bad` survives `validate_commit` (a non-string
timestamp is never parse-checked), and sanitization keeps its insertion
count at `-3` (Python `int(-3)` is `-3`; nothing clamps negatives), so the
surviving record has neither a parsing timestamp nor non-negative
counters. -/
theorem C7_counterexample :
    (validateCommit c7bad).1 = true
    ∧ (sanitizeCommit c7bad).insertions = some (.vint (-3))
    ∧ (sanitizeCommit c7bad).timestamp = some (.vint 5)
    ∧ ¬ C7ClaimAt c7bad := by
  refine ⟨by decide, by decide, by decide, ?_⟩
  intro hcl
  exact absurd (hcl (by decide)).2.2.2.2.2.1 (by decide)

/-- `sanitize_commit` always leaves a string in `author`. -/
theorem sanitize_author_isStr (c : RawCommit) :
    ∃ a, (sanitizeCommit c).author = some (.vstr a) := by
  rcases hca : c.author with _ | v
  · exact ⟨("Unknown").toList, by simp [sanitizeCommit, hca]⟩
  · rcases v with _ | s | n | xs
    · exact ⟨("Unknown").toList, by simp [sanitizeCommit, hca]⟩
    · exact ⟨s, by simp [sanitizeCommit, hca]⟩
    · exact ⟨("Unknown").toList, by simp [sanitizeCommit, hca]⟩
    · exact ⟨("Unknown").toList, by simp [sanitizeCommit, hca]⟩

/-- `sanitize_commit` always leaves a string in `message`. -/
theorem sanitize_message_isStr (c : RawCommit) :
    ∃ m, (sanitizeCommit c).message = some (.vstr m) := by
  rcases hcm : c.message with _ | v
  · exact ⟨("(No commit message)").toList, by simp [sanitizeCommit, hcm]⟩
  · rcases v with _ | s | n | xs
    · exact ⟨("(No commit message)").toList, by simp [sanitizeCommit, hcm]⟩
    · exact ⟨s, by simp [sanitizeCommit, hcm]⟩
    · exact ⟨("(No commit message)").toList, by simp [sanitizeCommit, hcm]⟩
    · exact ⟨("(No commit message)").toList, by simp [sanitizeCommit, hcm]⟩

theorem validateCommit_true_elim (c : RawCommit)
    (h : (validateCommit c).1 = true) :
    fieldAbsent c.hash = false ∧ fieldAbsent c.author = false
    ∧ fieldAbsent c.message = false ∧ fieldAbsent c.timestamp = false
    ∧ ∀ s, c.timestamp = some (.vstr s) → (fromisoformatE s).isSome = true := by
  unfold validateCommit at h
  by_cases h1 : fieldAbsent c.hash = true
  · rw [if_pos h1] at h; exact Bool.noConfusion h
  · rw [if_neg h1] at h
    by_cases h2 : fieldAbsent c.author = true
    · rw [if_pos h2] at h; exact Bool.noConfusion h
    · rw [if_neg h2] at h
      by_cases h3 : fieldAbsent c.message = true
      · rw [if_pos h3] at h; exact Bool.noConfusion h
      · rw [if_neg h3] at h
        by_cases h4 : fieldAbsent c.timestamp = true
        · rw [if_pos h4] at h; exact Bool.noConfusion h
        · rw [if_neg h4] at h
          refine ⟨by simpa using h1, by simpa using h2, by simpa using h3,
            by simpa using h4, ?_⟩
          intro s hs
          rw [hs] at h
          by_cases h5 : (fromisoformatE s).isSome = true
          · exact h5
          · simp [h5] at h

/-- C7 amended: a surviving record has its four required fields present
and non-`None`, string author and message, *integer* insertion and
deletion counts (negative values pass through; conversion failures reset
both to 0), and its timestamp — *when it is a string* — parses as a valid
point in time.  Non-negativity and the unconditional parse requirement do
not hold (see the counterexample). -/
theorem C7_sanitized_invariants (c : RawCommit)
    (h : (validateCommit c).1 = true) :
    fieldAbsent (sanitizeCommit c).hash = false
    ∧ (∃ a, (sanitizeCommit c).author = some (.vstr a))
    ∧ (∃ m, (sanitizeCommit c).message = some (.vstr m))
    ∧ fieldAbsent (sanitizeCommit c).timestamp = false
    ∧ (∀ s, (sanitizeCommit c).timestamp = some (.vstr s) →
        (fromisoformatE s).isSome = true)
    ∧ (∃ n : Int, (sanitizeCommit c).insertions = some (.vint n))
    ∧ (∃ n : Int, (sanitizeCommit c).deletions = some (.vint n)) := by
  obtain ⟨h1, _, _, h4, h5⟩ := validateCommit_true_elim c h
  refine ⟨h1, sanitize_author_isStr c, sanitize_message_isStr c, h4, ?_,
    ⟨_, rfl⟩, ⟨_, rfl⟩⟩
  intro s hs
  exact h5 s hs

/-- A fully-populated valid commit dict. -/
def c7good : RawCommit :=
  { hash := some (.vstr (("abc12345").toList))
    author := some (.vstr (("Alice").toList))
    message := some (.vstr (("feat: x").toList))
    timestamp := some (.vstr (("2025-01-10T10:00:00").toList)) }

theorem C7_sanitized_invariants_witness :
    fieldAbsent (sanitizeCommit c7good).hash = false
    ∧ (∃ n : Int, (sanitizeCommit c7good).insertions = some (.vint n)) :=
  ⟨(C7_sanitized_invariants c7good (by decide)).1,
   (C7_sanitized_invariants c7good (by decide)).2.2.2.2.2.1⟩

/-- `GitCommit` demo constructor for the time-window example. -/
def gitDemo (sha msg : String) (t : Int) : GitCommit :=
  { hexsha := sha.toList
    authorName := ("A").toList
    authorEmail := ("a@x").toList
    committedDate := t
    message := msg.toList
    treePaths := []
    insertionsTotal := 0
    deletionsTotal := 0
    parentDiff := some { paths := [], patches := [] } }

def gitDemo1 : GitCommit := gitDemo ("aaaaaaaa") ("m1") (1000000000 - 86400)
def gitDemo2 : GitCommit := gitDemo ("bbbbbbbb") ("m2") (1000000000 - 864000)
def gitDemo3 : GitCommit := gitDemo ("cccccccc") ("m3") (1000000000 - 3456000)

/-- C8 fails as stated: with commits 1, 10 and 40 days old and
`since="2w"` (a 14-day window), `get_commits` returns the 1-day-old *and*
the 10-day-old commit — the 10-day-old commit is inside the window — not
only the 1-day-old one as the claim (and the specification's example)
asserts. -/
theorem C8_counterexample :
    getCommits 1000000000 (some (("2w").toList)) none
      [ gitDemo1, gitDemo2, gitDemo3 ] =
      Except.ok [ formatCommit gitDemo1, formatCommit gitDemo2 ]
    ∧ getCommits 1000000000 (some (("2w").toList)) none
      [ gitDemo1, gitDemo2, gitDemo3 ] ≠
      Except.ok [ formatCommit gitDemo1 ] := by
  refine ⟨by decide, by decide⟩

/-- C8 amended: for a branch holding exactly three commits dated 1 day,
10 days and 40 days before `now` (newest first), `since="2w"` retains the
1-day-old and the 10-day-old commits, in that order; reaching the
40-day-old commit stops the walk. -/
theorem C8_since_two_weeks (now : Int) (c1 c2 c3 : GitCommit)
    (h1 : c1.committedDate = now - 86400)
    (h2 : c2.committedDate = now - 864000)
    (h3 : c3.committedDate = now - 3456000) :
    getCommits now (some (("2w").toList)) none [ c1, c2, c3 ] =
      Except.ok [ formatCommit c1, formatCommit c2 ] := by
  have hp : parseTime now ([ '2', 'w' ]) =
      Except.ok (now - 2 * 7 * 86400) := rfl
  have n1 : ¬(c1.committedDate < now - 1209600) := by omega
  have n2 : ¬(c2.committedDate < now - 1209600) := by omega
  have y3 : c3.committedDate < now - 1209600 := by omega
  have g1 : ¬(c1.committedDate > now) := by omega
  have g2 : ¬(c2.committedDate > now) := by omega
  simp [getCommits, hp, walkCommits, n1, n2, y3, g1, g2]

theorem C8_since_two_weeks_witness :
    getCommits 1000000000 (some (("2w").toList)) none
      [ gitDemo1, gitDemo2, gitDemo3 ] =
      Except.ok [ formatCommit gitDemo1, formatCommit gitDemo2 ] :=
  C8_since_two_weeks 1000000000 gitDemo1 gitDemo2 gitDemo3
    (by decide) (by decide) (by decide)

/-- C9: for an initial commit (no parent), the extracted record's
`files_changed` list is empty while its `diff` is the synthesized
`A <path>` listing of the whole tree; consequently its reduced digest
reports `files_changed = 0` even though the diff chunks still spell out
every file (their concatenation is the synthesized listing). -/
theorem C9_initial_commit (c : GitCommit) (ty : String)
    (h : c.parentDiff = none) :
    (formatCommit c).files_changed = []
    ∧ (formatCommit c).diff =
        joinSep (("\n").toList) (c.treePaths.map (fun p => ("A ").toList ++ p))
    ∧ (cleanCommit (formatCommit c) ty).files_changed = 0
    ∧ sjoin ((cleanCommit (formatCommit c) ty).diff_chunks) =
        (formatCommit c).diff := by
  refine ⟨?_, ?_, ?_, ?_⟩
  · simp [formatCommit, getChangedFiles, h]
  · simp [formatCommit, getCommitDiff, h]
  · simp [cleanCommit, formatCommit, getChangedFiles, h]
  · show sjoin (chunkDiff (formatCommit c).diff) = (formatCommit c).diff
    rw [chunkDiff_eq_chunksRec, sjoin_chunksRec]

/-- A parentless (initial) commit with a two-file tree. -/
def gitDemoInit : GitCommit :=
  { hexsha := ("dddddddd").toList
    authorName := ("A").toList
    authorEmail := ("a@x").toList
    committedDate := 0
    message := ("first").toList
    treePaths := [ ("src/main.py").toList, ("README.md").toList ]
    insertionsTotal := 3
    deletionsTotal := 0
    parentDiff := none }

theorem C9_initial_commit_witness :
    (formatCommit gitDemoInit).files_changed = []
    ∧ (cleanCommit (formatCommit gitDemoInit) ("other")).files_changed = 0
    ∧ (formatCommit gitDemoInit).diff = ("A src/main.py\nA README.md").toList :=
  ⟨(C9_initial_commit gitDemoInit ("other") rfl).1,
   (C9_initial_commit gitDemoInit ("other") rfl).2.2.1,
   by decide⟩

/-- C10: when two distinct email identities share one display name, the
name-keyed `by_author` map holds a single entry carrying only the stats of
the email processed last (here the second commit's), so the per-author
counts are overwritten — not summed — and total strictly less than
`total_commits`. -/
theorem C10_name_collision_overwrite (c1 c2 : Commit) (e1 e2 n : Str)
    (he1 : c1.email = some e1) (he2 : c2.email = some e2) (hne : e1 ≠ e2)
    (ha1 : c1.author = n) (ha2 : c2.author = n) :
    (groupCommits [ c1, c2 ]).stats.by_author =
      [ (n, { count := 1, types := [ (classifyCommit c2.message, 1) ] }) ]
    ∧ (groupCommits [ c1, c2 ]).stats.total_commits = 2
    ∧ ((groupCommits [ c1, c2 ]).stats.by_author.foldl
        (fun a p => a + p.2.count) 0) = 1 := by
  have hba : (groupCommits [ c1, c2 ]).stats.by_author =
      [ (n, { count := 1, types := [ (classifyCommit c2.message, 1) ] }) ] := by
    simp [groupCommits, stepCommit, appendGroup, lookupA, setAssoc, updateA,
      he1, he2, ha1, ha2, hne]
  exact ⟨hba, rfl, by rw [hba]; rfl⟩

def demoAlice1 : Commit :=
  { demoCommit with email := some (("alice@a.com").toList) }

def demoAlice2 : Commit :=
  { demoCommit with
      email := some (("alice@b.com").toList)
      message := ("fix: y").toList }

theorem C10_name_collision_overwrite_witness :
    (groupCommits [ demoAlice1, demoAlice2 ]).stats.by_author =
      [ (("Alice").toList,
         { count := 1, types := [ (classifyCommit demoAlice2.message, 1) ] }) ] :=
  (C10_name_collision_overwrite demoAlice1 demoAlice2
    (("alice@a.com").toList) (("alice@b.com").toList) (("Alice").toList)
    rfl rfl (by decide) rfl rfl).1

end Gitstory
